import Mathlib

/-!
Verification development for the reflection-to-descriptor converter
(`upb/util/def_to_proto.c`): a shallow embedding of the converter into Lean,
together with theorems about its value encoders, entity converters, public
entry points and allocation-failure discipline.

Modelling conventions:
* A byte string is a `List Nat` with every element `< 256`.
* The arena is modelled by an allocation schedule `Sched : Nat → Bool`
  (allocation number `i` succeeds iff the schedule says `true`) together with
  a running allocation counter; this models §4.1 ("allocate(n) returns a byte
  range; on allocator exhaustion it transfers control ...") of the design.
* Computations run in the monad `M α = Sched → Nat → Res α`.  `Res.ok`
  is a normal return, `Res.oom` models the `longjmp` taken by `CHK_OOM`
  (the entry point's `setjmp` turns it into a `NULL` return), and
  `Res.crash` models undefined behaviour: writing through a failed,
  unchecked allocation, or an assertion failure / `UPB_UNREACHABLE`.
* Strings built into the output tree are tagged with their provenance:
  `OutStr.dup s` is arena-owned storage produced by one of the duplicating
  encoders (`strviewdup`, `strviewdup2`, `qual_dup`, `printf_dup`,
  `default_bytes`), while `OutStr.alias s` is a string view copied verbatim
  out of the source model without duplication.
-/

/-- A byte-level view of a Lean string (the bytes of its characters; all
names in the schema model are ASCII). -/
def bytes (s : String) : List Nat := s.toList.map Char.toNat

/-- Allocation schedule: `s i = true` iff the `i`-th arena allocation of the
conversion succeeds. -/
def Sched : Type := Nat → Bool

/-- Result of running a converter: normal value plus next allocation index,
an out-of-memory longjmp (caught by the entry point and turned into a null
result), or undefined behaviour (null-pointer write or failed assertion). -/
inductive Res (α : Type) where
  | ok (a : α) (i : Nat)
  | oom (i : Nat)
  | crash (i : Nat)
deriving DecidableEq

/-- The conversion monad: an allocation schedule and a running allocation
counter threaded through the computation. -/
def M (α : Type) : Type := Sched → Nat → Res α

def M.pure (a : α) : M α := fun _ i => .ok a i

def M.bind (m : M α) (f : α → M β) : M β := fun s i =>
  match m s i with
  | .ok a j => f a s j
  | .oom j => .oom j
  | .crash j => .crash j

/-- Undefined behaviour (dereferencing an invalid pointer, a failed
`UPB_ASSERT`, or reaching `UPB_UNREACHABLE`). -/
def M.crash : M α := fun _ i => .crash i

/-- A checked arena allocation: `upb_Arena_Malloc`/`_new`/`_serialize`/
`_parse` immediately followed by `CHK_OOM`, which `longjmp`s to the entry
point on failure. -/
def allocC : M Unit := fun s i => if s i then .ok () (i + 1) else .oom (i + 1)

/-- A `resize_*` repeated-array allocation whose result is fed through
`CHK_OOM` (used for message fields and enum values).  Modelled from the spec:
the generated `resize` functions themselves are outside this translation
unit; per §6 they allocate the slot array from the arena and can fail. -/
def resizeC (_n : Nat) : M Unit := allocC

/-- A `resize_*` repeated-array allocation whose result is NOT checked.
Modelled from the spec (§6) like `resizeC`; on failure the C code keeps the
null array pointer: with a nonzero child count the slot-filling loop then
writes through null (undefined behaviour, modelled as an immediate crash),
and with a zero count the loop body never runs and the failure goes
unnoticed. -/
def resizeU (n : Nat) : M Unit := fun s i =>
  if s i then .ok () (i + 1)
  else if n = 0 then .ok () (i + 1) else .crash (i + 1)

/-- A string in the output descriptor tree, tagged by provenance:
`dup` = bytes copied into arena-owned storage, `alias` = a string view
aliasing the source model's storage. -/
inductive OutStr where
  | dup (s : List Nat)
  | alias (s : List Nat)
deriving DecidableEq

/-! ## Value encoders (`def_to_proto.c` lines 46-136) -/

/-- `strviewdup2`: copy a byte string into arena-owned storage. -/
def strviewdup2 (v : List Nat) : M OutStr :=
  M.bind allocC fun _ => M.pure (.dup v)

/-- `strviewdup`: copy a C string into arena-owned storage. -/
def strviewdup (s : String) : M OutStr :=
  strviewdup2 (bytes s)

/-- `qual_dup`: allocate `n + 1` bytes holding `'.'` followed by the name. -/
def qual_dup (s : String) : M OutStr :=
  M.bind allocC fun _ => M.pure (.dup (46 :: bytes s))

/-- `printf_dup`: allocate a fixed 32-byte buffer, format into it, and
assert that the formatted length is below 32 (`UPB_ASSERT(n < max)`; a
violated assertion is undefined behaviour).  The argument is the already
formatted text. -/
def printf_dup (v : List Nat) : M OutStr :=
  M.bind allocC fun _ =>
    if v.length < 32 then M.pure (.dup v) else M.crash

/-- `upb_isprint`: `ch >= 0x20 && ch <= 0x7f` on a (signed) `char`; for a
byte value this holds exactly on `0x20..0x7f` (bytes `≥ 0x80` appear as
negative `char`s and fail the lower bound). -/
def upb_isprint (b : Nat) : Bool := 0x20 ≤ b && b ≤ 0x7f

/-- `special_escape`: the escape letter for the six specially escaped bytes,
`-1` otherwise (byte values: 10 = LF, 13 = CR, 9 = TAB, 92 = backslash,
39 = single quote, 34 = double quote). -/
def special_escape (b : Nat) : Int :=
  if b = 10 then 110
  else if b = 13 then 114
  else if b = 9 then 116
  else if b = 92 then 92
  else if b = 39 then 39
  else if b = 34 then 34
  else -1

/-- First pass of `default_bytes`: the byte count of the escaped form
(2 per specially escaped byte, 1 per printable byte, 4 per octal-escaped
byte). -/
def escape_len : List Nat → Nat
  | [] => 0
  | b :: rest =>
    (if 0 ≤ special_escape b then 2 else if upb_isprint b then 1 else 4) +
      escape_len rest

/-- Second pass of `default_bytes`: the escaped bytes themselves.  A special
byte becomes backslash plus its escape letter, a printable byte is emitted
verbatim, anything else becomes backslash plus three octal digits
(`'0' + (ch >> 6)`, `'0' + ((ch >> 3) & 7)`, `'0' + (ch & 7)`). -/
def escape_bytes : List Nat → List Nat
  | [] => []
  | b :: rest =>
    if 0 ≤ special_escape b then 92 :: (special_escape b).toNat :: escape_bytes rest
    else if upb_isprint b then b :: escape_bytes rest
    else 92 :: (48 + b / 64) :: (48 + b / 8 % 8) :: (48 + b % 8) :: escape_bytes rest

/-- `default_bytes`: one sized arena allocation (checked), then the escaped
text; the two scanning passes are `escape_len` and `escape_bytes`. -/
def default_bytes (v : List Nat) : M OutStr :=
  M.bind allocC fun _ => M.pure (.dup (escape_bytes v))

/-- Modelled from the spec: the standard unescaping of the canonical escaped
byte-string form (the inverse direction is not part of the converter).  A
backslash followed by one of the six escape letters yields the corresponding
byte; a backslash followed by anything else starts a three-digit octal
escape; any other byte stands for itself. -/
def unescape_bytes : List Nat → List Nat
  | [] => []
  | b :: rest =>
    if b = 92 then
      match rest with
      | [] => []
      | c :: rest1 =>
        if c = 110 then 10 :: unescape_bytes rest1
        else if c = 114 then 13 :: unescape_bytes rest1
        else if c = 116 then 9 :: unescape_bytes rest1
        else if c = 92 then 92 :: unescape_bytes rest1
        else if c = 39 then 39 :: unescape_bytes rest1
        else if c = 34 then 34 :: unescape_bytes rest1
        else
          match rest1 with
          | d2 :: d3 :: rest2 =>
            ((c - 48) * 64 + (d2 - 48) * 8 + (d3 - 48)) :: unescape_bytes rest2
          | _ => []
    else b :: unescape_bytes rest

/-! ## Decimal rendering (the model of `printf` integer formatting)

Modelled from the spec (§4.2 `format_number`): `vsnprintf` is outside this
translation unit; signed and unsigned integers are rendered as plain
decimal text. -/

/-- Digits of `n` in base 10, most significant first, as ASCII bytes; the
first argument is fuel (any value `≥ n` is enough). -/
def natDecAux : Nat → Nat → List Nat → List Nat
  | 0, _, acc => acc
  | fuel + 1, n, acc =>
    if n = 0 then acc else natDecAux fuel (n / 10) ((48 + n % 10) :: acc)

/-- Plain decimal rendering of an unsigned integer (`%u` family). -/
def uintDec (n : Nat) : List Nat :=
  if n = 0 then [48] else natDecAux n n []

/-- Plain decimal rendering of a signed integer (`%d` family). -/
def intDec (i : Int) : List Nat :=
  if i < 0 then 45 :: uintDec i.natAbs else uintDec i.natAbs

/-! ## The shape of `%g` floating-point output

Modelled from the spec (§4.2): floats are rendered with 9 significant
digits, doubles with 17; the output is an optional minus sign, the
significant digits with an optional decimal point, and an optional exponent
part `e±ddd` (an IEEE double's decimal exponent never needs more than three
digits). -/

structure GNum where
  neg : Bool
  intPart : List Nat
  hasPoint : Bool
  fracPart : List Nat
  hasExp : Bool
  expNeg : Bool
  expDigits : List Nat

/-- Well-formedness of a `%.{sig}g` rendering: at most `sig` significant
digits in total and at most three exponent digits. -/
def GNum.WF (sig : Nat) (g : GNum) : Prop :=
  g.intPart.length + g.fracPart.length ≤ sig ∧ g.expDigits.length ≤ 3

/-- The rendered text of a `%g`-formatted number. -/
def GNum.render (g : GNum) : List Nat :=
  (if g.neg then [45] else []) ++ g.intPart ++
    (if g.hasPoint then [46] else []) ++ g.fracPart ++
    (if g.hasExp then 101 :: ((if g.expNeg then [45] else []) ++ g.expDigits) else [])

/-! ## The source schema model (read-only accessor results, §3)

Each structure records exactly the accessor results the converter reads:
cross-references are already resolved, so a referenced sub-type appears as
its full name (what `upb_MessageDef_FullName`/`upb_EnumDef_FullName` return
for it). -/

/-- A float/double value as seen by the three special-value tests of
`default_string`: `val == INFINITY`, `val == -INFINITY` and `val != val`
hold exactly on `posInf`, `negInf` and `nanV` respectively (IEEE
semantics); any other value is `finite tok`, an opaque token consumed by
the external `%g` formatter. -/
inductive FVal where
  | posInf
  | negInf
  | nanV
  | finite (tok : Nat)
deriving DecidableEq

/-- `upb_CType` (the value kinds `default_string` dispatches on). -/
inductive CType where
  | boolT | enumT | int64T | uint64T | int32T | uint32T
  | floatT | doubleT | stringT | bytesT | messageT
deriving DecidableEq

/-- The `upb_MessageValue` union member that `upb_FieldDef_Default` exposes
for the field's kind. -/
inductive DefVal where
  | boolV (b : Bool)
  | int32V (v : Int)
  | int64V (v : Int)
  | uint32V (v : Nat)
  | uint64V (v : Nat)
  | floatV (x : FVal)
  | doubleV (x : FVal)
  | strV (v : List Nat)
deriving DecidableEq

/-- The model of the external `%g` formatter (`%.9g` for floats, `%.17g`
for doubles), applied to the opaque token of a finite value. -/
structure Fmt where
  g9 : Nat → List Nat
  g17 : Nat → List Nat

structure EnumValDef where
  name : String
  number : Int
  hasOptions : Bool
deriving DecidableEq

structure EnumDef where
  name : String
  fullName : String
  values : List EnumValDef
  reservedRanges : List (Int × Int)
  reservedNames : List String
  hasOptions : Bool
deriving DecidableEq

structure OneofDef where
  name : String
  hasOptions : Bool
deriving DecidableEq

structure FieldDef where
  name : String
  number : Int
  label : Nat
  ftype : Nat
  hasJsonName : Bool
  jsonName : String
  isSubMessage : Bool
  msgSubFullName : String
  ctype : CType
  enumSub : EnumDef
  isExtension : Bool
  extendeeFullName : String
  hasDefault : Bool
  defaultVal : DefVal
  oneofIndex : Option Nat
  isProto3Optional : Bool
  hasOptions : Bool
deriving DecidableEq

structure MethodDef where
  name : String
  inputTypeFullName : String
  outputTypeFullName : String
  clientStreaming : Bool
  serverStreaming : Bool
  hasOptions : Bool
deriving DecidableEq

structure ServiceDef where
  name : String
  methods : List MethodDef
  hasOptions : Bool
deriving DecidableEq

/-- Message definitions nest recursively (`upb_MessageDef_NestedMessage`). -/
inductive MessageDef where
  | mk
    (name : String)
    (fields : List FieldDef)
    (oneofs : List OneofDef)
    (nestedMsgs : List MessageDef)
    (nestedEnums : List EnumDef)
    (nestedExts : List FieldDef)
    (extRanges : List (Int × Int × Bool))
    (resRanges : List (Int × Int))
    (resNames : List String)
    (hasOptions : Bool)

def MessageDef.fields : MessageDef → List FieldDef
  | .mk _ fs _ _ _ _ _ _ _ _ => fs

def MessageDef.nestedMsgs : MessageDef → List MessageDef
  | .mk _ _ _ ms _ _ _ _ _ _ => ms

/-- File syntax mode (`upb_Syntax`). -/
inductive SynMode where
  | proto2 | proto3 | editions
deriving DecidableEq

structure FileDef where
  name : String
  package : Option String
  synMode : SynMode
  edition : Int
  deps : List String
  publicDeps : List Int
  weakDeps : List Int
  topMsgs : List MessageDef
  topEnums : List EnumDef
  services : List ServiceDef
  topExts : List FieldDef
  hasOptions : Bool

/-! ## The output descriptor tree -/

structure FieldDescriptorProto where
  name : OutStr
  number : Int
  label : Nat
  ftype : Nat
  json_name : Option OutStr
  type_name : Option OutStr
  extendee : Option OutStr
  default_value : Option OutStr
  oneof_index : Option Nat
  proto3_optional : Bool
  options : Bool
deriving DecidableEq

structure OneofDescriptorProto where
  name : OutStr
  options : Bool
deriving DecidableEq

structure EnumValueDescriptorProto where
  name : OutStr
  number : Int
  options : Bool
deriving DecidableEq

structure EnumDescriptorProto where
  name : OutStr
  value : List EnumValueDescriptorProto
  reserved_range : List (Int × Int)
  reserved_name : List OutStr
  options : Bool
deriving DecidableEq

/-- `DescriptorProto` nests recursively through `nested_type`. -/
inductive DescriptorProto where
  | mk
    (name : OutStr)
    (field : List FieldDescriptorProto)
    (oneof_decl : List OneofDescriptorProto)
    (nested_type : List DescriptorProto)
    (enum_type : List EnumDescriptorProto)
    (extension : List FieldDescriptorProto)
    (extension_range : List (Int × Int × Bool))
    (reserved_range : List (Int × Int))
    (reserved_name : List OutStr)
    (options : Bool)

def DescriptorProto.name : DescriptorProto → OutStr
  | .mk nm _ _ _ _ _ _ _ _ _ => nm

def DescriptorProto.field : DescriptorProto → List FieldDescriptorProto
  | .mk _ f _ _ _ _ _ _ _ _ => f

def DescriptorProto.oneof_decl : DescriptorProto → List OneofDescriptorProto
  | .mk _ _ o _ _ _ _ _ _ _ => o

def DescriptorProto.nested_type : DescriptorProto → List DescriptorProto
  | .mk _ _ _ n _ _ _ _ _ _ => n

def DescriptorProto.enum_type : DescriptorProto → List EnumDescriptorProto
  | .mk _ _ _ _ e _ _ _ _ _ => e

def DescriptorProto.extension : DescriptorProto → List FieldDescriptorProto
  | .mk _ _ _ _ _ x _ _ _ _ => x

def DescriptorProto.extension_range : DescriptorProto → List (Int × Int × Bool)
  | .mk _ _ _ _ _ _ r _ _ _ => r

def DescriptorProto.reserved_range : DescriptorProto → List (Int × Int)
  | .mk _ _ _ _ _ _ _ r _ _ => r

def DescriptorProto.reserved_name : DescriptorProto → List OutStr
  | .mk _ _ _ _ _ _ _ _ r _ => r

def DescriptorProto.options : DescriptorProto → Bool
  | .mk _ _ _ _ _ _ _ _ _ o => o

structure MethodDescriptorProto where
  name : OutStr
  input_type : OutStr
  output_type : OutStr
  client_streaming : Bool
  server_streaming : Bool
  options : Bool
deriving DecidableEq

structure ServiceDescriptorProto where
  name : OutStr
  method : List MethodDescriptorProto
  options : Bool
deriving DecidableEq

structure FileDescriptorProto where
  name : OutStr
  package : Option OutStr
  edition : Option Int
  synTok : Option OutStr
  dependency : List OutStr
  public_dependency : List Int
  weak_dependency : List Int
  message_type : List DescriptorProto
  enum_type : List EnumDescriptorProto
  service : List ServiceDescriptorProto
  extension : List FieldDescriptorProto
  options : Bool

/-! ## Default-value stringifier (`default_string`, lines 138-182) -/

/-- `default_string`: the float/double special-value tests run first
(`val == INFINITY`, `val == -INFINITY`, `val != val`), then the switch on
the field's value kind; reading a union member that does not match the
field's kind, falling through to the `default:` arm, or the null-pointer
dereference after a failed enum-value lookup is undefined behaviour. -/
def default_string (fmt : Fmt) (f : FieldDef) : M OutStr :=
  match f.ctype, f.defaultVal with
  | .floatT, .floatV x =>
    match x with
    | .posInf => strviewdup "inf"
    | .negInf => strviewdup "-inf"
    | .nanV => strviewdup "nan"
    | .finite tok => printf_dup (fmt.g9 tok)
  | .doubleT, .doubleV x =>
    match x with
    | .posInf => strviewdup "inf"
    | .negInf => strviewdup "-inf"
    | .nanV => strviewdup "nan"
    | .finite tok => printf_dup (fmt.g17 tok)
  | .boolT, .boolV b => strviewdup (if b then "true" else "false")
  | .enumT, .int32V v =>
    match f.enumSub.values.find? (fun ev => ev.number = v) with
    | some ev => strviewdup ev.name
    | none => M.crash
  | .int64T, .int64V v => printf_dup (intDec v)
  | .uint64T, .uint64V v => printf_dup (uintDec v)
  | .int32T, .int32V v => printf_dup (intDec v)
  | .uint32T, .uint32V v => printf_dup (uintDec v)
  | .stringT, .strV v => strviewdup2 v
  | .bytesT, .strV v => default_bytes v
  | _, _ => M.crash

/-! ## Entity converters (lines 184-570)

Each converter starts with the node constructor (a checked allocation);
`SET_OPTIONS` is a serialize allocation plus a parse allocation, both
checked. -/

/-- `SET_OPTIONS`: serialize (checked) then parse (checked). -/
def set_options : M Unit :=
  M.bind allocC fun _ => allocC

/-- Sequentially convert the children of one repeated category, filling the
output slots in source order. -/
def convList (f : α → M β) : List α → M (List β)
  | [] => M.pure []
  | x :: xs =>
    M.bind (f x) fun y =>
    M.bind (convList f xs) fun ys =>
    M.pure (y :: ys)

def resrange_toproto (r : Int × Int) : M (Int × Int) :=
  M.bind allocC fun _ => M.pure r

def enumresrange_toproto (r : Int × Int) : M (Int × Int) :=
  M.bind allocC fun _ => M.pure r

def extrange_toproto (e : Int × Int × Bool) : M (Int × Int × Bool) :=
  M.bind allocC fun _ =>
  M.bind (if e.2.2 then set_options else M.pure ()) fun _ =>
  M.pure e

def fielddef_toproto (fmt : Fmt) (f : FieldDef) : M FieldDescriptorProto :=
  M.bind allocC fun _ =>
  M.bind (strviewdup f.name) fun nm =>
  M.bind (if f.hasJsonName then
            M.bind (strviewdup f.jsonName) fun s => M.pure (some s)
          else M.pure none) fun jn =>
  M.bind (if f.isSubMessage then
            M.bind (qual_dup f.msgSubFullName) fun s => M.pure (some s)
          else if f.ctype = .enumT then
            M.bind (qual_dup f.enumSub.fullName) fun s => M.pure (some s)
          else M.pure none) fun tn =>
  M.bind (if f.isExtension then
            M.bind (qual_dup f.extendeeFullName) fun s => M.pure (some s)
          else M.pure none) fun ext =>
  M.bind (if f.hasDefault then
            M.bind (default_string fmt f) fun s => M.pure (some s)
          else M.pure none) fun dv =>
  M.bind (if f.hasOptions then set_options else M.pure ()) fun _ =>
  M.pure
    { name := nm, number := f.number, label := f.label, ftype := f.ftype,
      json_name := jn, type_name := tn, extendee := ext, default_value := dv,
      oneof_index := f.oneofIndex, proto3_optional := f.isProto3Optional,
      options := f.hasOptions }

def oneofdef_toproto (o : OneofDef) : M OneofDescriptorProto :=
  M.bind allocC fun _ =>
  M.bind (strviewdup o.name) fun nm =>
  M.bind (if o.hasOptions then set_options else M.pure ()) fun _ =>
  M.pure { name := nm, options := o.hasOptions }

def enumvaldef_toproto (e : EnumValDef) : M EnumValueDescriptorProto :=
  M.bind allocC fun _ =>
  M.bind (strviewdup e.name) fun nm =>
  M.bind (if e.hasOptions then set_options else M.pure ()) fun _ =>
  M.pure { name := nm, number := e.number, options := e.hasOptions }

/-- `enumdef_toproto`: note that the `value` array resize is checked
(`CHK_OOM(vals)`), the `reserved_range` and `reserved_name` resizes are
not, and the reserved names are assigned from the source model's string
views without duplication. -/
def enumdef_toproto (e : EnumDef) : M EnumDescriptorProto :=
  M.bind allocC fun _ =>
  M.bind (strviewdup e.name) fun nm =>
  M.bind (resizeC e.values.length) fun _ =>
  M.bind (convList enumvaldef_toproto e.values) fun vals =>
  M.bind (resizeU e.reservedRanges.length) fun _ =>
  M.bind (convList enumresrange_toproto e.reservedRanges) fun rrs =>
  M.bind (resizeU e.reservedNames.length) fun _ =>
  M.bind (if e.hasOptions then set_options else M.pure ()) fun _ =>
  M.pure
    { name := nm, value := vals, reserved_range := rrs,
      reserved_name := e.reservedNames.map (fun s => OutStr.alias (bytes s)),
      options := e.hasOptions }

mutual

/-- `msgdef_toproto`: only the `field` array resize is checked
(`CHK_OOM(fields)`); the other seven resizes are unchecked, and the
reserved names are assigned without duplication. -/
def msgdef_toproto (fmt : Fmt) : MessageDef → M DescriptorProto
  | .mk name fields oneofs nestedMsgs nestedEnums nestedExts extRanges
      resRanges resNames hasOpts =>
    M.bind allocC fun _ =>
    M.bind (strviewdup name) fun nm =>
    M.bind (resizeC fields.length) fun _ =>
    M.bind (convList (fielddef_toproto fmt) fields) fun fs =>
    M.bind (resizeU oneofs.length) fun _ =>
    M.bind (convList oneofdef_toproto oneofs) fun os =>
    M.bind (resizeU nestedMsgs.length) fun _ =>
    M.bind (convMsgs fmt nestedMsgs) fun nms =>
    M.bind (resizeU nestedEnums.length) fun _ =>
    M.bind (convList enumdef_toproto nestedEnums) fun nes =>
    M.bind (resizeU nestedExts.length) fun _ =>
    M.bind (convList (fielddef_toproto fmt) nestedExts) fun nxs =>
    M.bind (resizeU extRanges.length) fun _ =>
    M.bind (convList extrange_toproto extRanges) fun ers =>
    M.bind (resizeU resRanges.length) fun _ =>
    M.bind (convList resrange_toproto resRanges) fun rrs =>
    M.bind (resizeU resNames.length) fun _ =>
    M.bind (if hasOpts then set_options else M.pure ()) fun _ =>
    M.pure (.mk nm fs os nms nes nxs ers rrs
      (resNames.map (fun s => OutStr.alias (bytes s))) hasOpts)

def convMsgs (fmt : Fmt) : List MessageDef → M (List DescriptorProto)
  | [] => M.pure []
  | m :: ms =>
    M.bind (msgdef_toproto fmt m) fun p =>
    M.bind (convMsgs fmt ms) fun ps =>
    M.pure (p :: ps)

end

def methoddef_toproto (m : MethodDef) : M MethodDescriptorProto :=
  M.bind allocC fun _ =>
  M.bind (strviewdup m.name) fun nm =>
  M.bind (qual_dup m.inputTypeFullName) fun it =>
  M.bind (qual_dup m.outputTypeFullName) fun ot =>
  M.bind (if m.hasOptions then set_options else M.pure ()) fun _ =>
  M.pure
    { name := nm, input_type := it, output_type := ot,
      client_streaming := m.clientStreaming,
      server_streaming := m.serverStreaming, options := m.hasOptions }

/-- `servicedef_toproto`: the `method` array resize is unchecked. -/
def servicedef_toproto (s : ServiceDef) : M ServiceDescriptorProto :=
  M.bind allocC fun _ =>
  M.bind (strviewdup s.name) fun nm =>
  M.bind (resizeU s.methods.length) fun _ =>
  M.bind (convList methoddef_toproto s.methods) fun ms =>
  M.bind (if s.hasOptions then set_options else M.pure ()) fun _ =>
  M.pure { name := nm, method := ms, options := s.hasOptions }

/-- `filedef_toproto`: package only when present and non-empty, edition only
under the editions mode, the literal `"proto3"` only under proto3; all
repeated-array resizes here are unchecked. -/
def filedef_toproto (fmt : Fmt) (f : FileDef) : M FileDescriptorProto :=
  M.bind allocC fun _ =>
  M.bind (strviewdup f.name) fun nm =>
  M.bind (match f.package with
          | some pk =>
            if pk.length ≠ 0 then
              M.bind (strviewdup pk) fun s => M.pure (some s)
            else M.pure none
          | none => M.pure none) fun pkg =>
  M.bind (if f.synMode = .proto3 then
            M.bind (strviewdup "proto3") fun s => M.pure (some s)
          else M.pure none) fun syn =>
  M.bind (resizeU f.deps.length) fun _ =>
  M.bind (convList strviewdup f.deps) fun deps =>
  M.bind (resizeU f.publicDeps.length) fun _ =>
  M.bind (resizeU f.weakDeps.length) fun _ =>
  M.bind (resizeU f.topMsgs.length) fun _ =>
  M.bind (convMsgs fmt f.topMsgs) fun msgs =>
  M.bind (resizeU f.topEnums.length) fun _ =>
  M.bind (convList enumdef_toproto f.topEnums) fun enums =>
  M.bind (resizeU f.services.length) fun _ =>
  M.bind (convList servicedef_toproto f.services) fun svcs =>
  M.bind (resizeU f.topExts.length) fun _ =>
  M.bind (convList (fielddef_toproto fmt) f.topExts) fun exts =>
  M.bind (if f.hasOptions then set_options else M.pure ()) fun _ =>
  M.pure
    { name := nm, package := pkg,
      edition := if f.synMode = .editions then some f.edition else none,
      synTok := syn, dependency := deps,
      public_dependency := f.publicDeps, weak_dependency := f.weakDeps,
      message_type := msgs, enum_type := enums, service := svcs,
      extension := exts, options := f.hasOptions }

/-! ## Public entry points (lines 572-666)

Each entry point establishes the `setjmp` recovery point and starts the
matching converter with a fresh allocation counter; the `longjmp` taken by
`CHK_OOM` surfaces as a null result. -/

/-- What the external caller observes: a built node, a null result (the
`setjmp` recovery path), or undefined behaviour. -/
inductive EntryResult (α : Type) where
  | ok (a : α)
  | null
  | undef
deriving DecidableEq

def runEntry (m : M α) (s : Sched) : EntryResult α :=
  match m s 0 with
  | .ok a _ => .ok a
  | .oom _ => .null
  | .crash _ => .undef

def upb_MessageDef_ToProto (fmt : Fmt) (m : MessageDef) (s : Sched) :
    EntryResult DescriptorProto :=
  runEntry (msgdef_toproto fmt m) s

def upb_EnumDef_ToProto (e : EnumDef) (s : Sched) :
    EntryResult EnumDescriptorProto :=
  runEntry (enumdef_toproto e) s

def upb_EnumValueDef_ToProto (e : EnumValDef) (s : Sched) :
    EntryResult EnumValueDescriptorProto :=
  runEntry (enumvaldef_toproto e) s

def upb_FieldDef_ToProto (fmt : Fmt) (f : FieldDef) (s : Sched) :
    EntryResult FieldDescriptorProto :=
  runEntry (fielddef_toproto fmt f) s

def upb_OneofDef_ToProto (o : OneofDef) (s : Sched) :
    EntryResult OneofDescriptorProto :=
  runEntry (oneofdef_toproto o) s

def upb_FileDef_ToProto (fmt : Fmt) (f : FileDef) (s : Sched) :
    EntryResult FileDescriptorProto :=
  runEntry (filedef_toproto fmt f) s

def upb_MethodDef_ToProto (m : MethodDef) (s : Sched) :
    EntryResult MethodDescriptorProto :=
  runEntry (methoddef_toproto m) s

def upb_ServiceDef_ToProto (s : ServiceDef) (sc : Sched) :
    EntryResult ServiceDescriptorProto :=
  runEntry (servicedef_toproto s) sc

/-! ## Proof machinery: ok-value determinism

The value carried by a successful run of a converter does not depend on the
allocation schedule or counter; `ValIs m v` states that every successful run
of `m` returns `v`. -/

/-- The all-successful allocation schedule. -/
def allT : Sched := fun _ => true

def ValIs (m : M α) (v : α) : Prop :=
  ∀ s i a j, m s i = .ok a j → a = v

theorem valIs_pure (a : α) : ValIs (M.pure a) a := by
  intro s i b j h
  simp [M.pure] at h
  exact h.1.symm

theorem valIs_pure_of (a : α) (h : a = v) : ValIs (M.pure a) v := by
  intro s i b j hh
  simp [M.pure] at hh
  exact hh.1.symm.trans h

theorem valIs_bind {m : M α} {f : α → M β} {a : α} {b : β}
    (hm : ValIs m a) (hf : ValIs (f a) b) : ValIs (M.bind m f) b := by
  intro s i c j h
  unfold M.bind at h
  cases hmi : m s i with
  | ok a' k =>
    rw [hmi] at h
    have := hm s i a' k hmi
    subst this
    exact hf s k c j h
  | oom k => rw [hmi] at h; cases h
  | crash k => rw [hmi] at h; cases h

theorem valIs_unitM (m : M Unit) : ValIs m () := by
  intro s i a j _
  rfl

theorem valIs_crashM (v : α) : ValIs M.crash v := by
  intro s i a j h
  cases h

theorem valIs_ite {c : Prop} [Decidable c] {m₁ m₂ : M α} {v₁ v₂ : α}
    (h₁ : ValIs m₁ v₁) (h₂ : ValIs m₂ v₂) :
    ValIs (if c then m₁ else m₂) (if c then v₁ else v₂) := by
  by_cases hc : c
  · simpa [hc] using h₁
  · simpa [hc] using h₂

theorem valIs_strviewdup2 (v : List Nat) : ValIs (strviewdup2 v) (.dup v) :=
  valIs_bind (m := allocC) (a := ()) (valIs_unitM _) (valIs_pure _)

theorem valIs_strviewdup (s : String) : ValIs (strviewdup s) (.dup (bytes s)) :=
  valIs_strviewdup2 (bytes s)

theorem valIs_qual_dup (s : String) : ValIs (qual_dup s) (.dup (46 :: bytes s)) :=
  valIs_bind (m := allocC) (a := ()) (valIs_unitM _) (valIs_pure _)

theorem valIs_printf_dup (v : List Nat) : ValIs (printf_dup v) (.dup v) := by
  refine valIs_bind (m := allocC) (a := ()) (valIs_unitM _) ?_
  by_cases h : v.length < 32
  · simpa [h] using valIs_pure (α := OutStr) (.dup v)
  · simpa [h] using valIs_crashM (α := OutStr) (.dup v)

theorem valIs_default_bytes (v : List Nat) :
    ValIs (default_bytes v) (.dup (escape_bytes v)) :=
  valIs_bind (m := allocC) (a := ()) (valIs_unitM _) (valIs_pure _)

/-! ## Pure mirrors of the converters

`xOut` is the value a successful conversion of `x` produces (proved below);
at the undefined-behaviour branches, which never return, it holds a dummy
value. -/

def defaultOut (fmt : Fmt) (f : FieldDef) : OutStr :=
  match f.ctype, f.defaultVal with
  | .floatT, .floatV x =>
    match x with
    | .posInf => .dup (bytes "inf")
    | .negInf => .dup (bytes "-inf")
    | .nanV => .dup (bytes "nan")
    | .finite tok => .dup (fmt.g9 tok)
  | .doubleT, .doubleV x =>
    match x with
    | .posInf => .dup (bytes "inf")
    | .negInf => .dup (bytes "-inf")
    | .nanV => .dup (bytes "nan")
    | .finite tok => .dup (fmt.g17 tok)
  | .boolT, .boolV b => .dup (bytes (if b then "true" else "false"))
  | .enumT, .int32V v =>
    match f.enumSub.values.find? (fun ev => ev.number = v) with
    | some ev => .dup (bytes ev.name)
    | none => .dup []
  | .int64T, .int64V v => .dup (intDec v)
  | .uint64T, .uint64V v => .dup (uintDec v)
  | .int32T, .int32V v => .dup (intDec v)
  | .uint32T, .uint32V v => .dup (uintDec v)
  | .stringT, .strV v => .dup v
  | .bytesT, .strV v => .dup (escape_bytes v)
  | _, _ => .dup []

theorem valIs_default_string (fmt : Fmt) (f : FieldDef) :
    ValIs (default_string fmt f) (defaultOut fmt f) := by
  unfold default_string defaultOut
  cases hc : f.ctype <;> cases hd : f.defaultVal <;>
    first
      | exact valIs_crashM _
      | exact valIs_strviewdup _
      | exact valIs_strviewdup2 _
      | exact valIs_printf_dup _
      | exact valIs_default_bytes _
      | skip
  case enumT.int32V v =>
    cases hf : f.enumSub.values.find? (fun ev => ev.number = v) with
    | some ev => simp only [hf]; exact valIs_strviewdup _
    | none => simp only [hf]; exact valIs_crashM _
  case floatT.floatV x =>
    cases x with
    | posInf => exact valIs_strviewdup _
    | negInf => exact valIs_strviewdup _
    | nanV => exact valIs_strviewdup _
    | finite tok => exact valIs_printf_dup _
  case doubleT.doubleV x =>
    cases x with
    | posInf => exact valIs_strviewdup _
    | negInf => exact valIs_strviewdup _
    | nanV => exact valIs_strviewdup _
    | finite tok => exact valIs_printf_dup _

def fieldOut (fmt : Fmt) (f : FieldDef) : FieldDescriptorProto :=
  { name := .dup (bytes f.name), number := f.number, label := f.label,
    ftype := f.ftype,
    json_name := if f.hasJsonName then some (.dup (bytes f.jsonName)) else none,
    type_name :=
      if f.isSubMessage then some (.dup (46 :: bytes f.msgSubFullName))
      else if f.ctype = .enumT then some (.dup (46 :: bytes f.enumSub.fullName))
      else none,
    extendee :=
      if f.isExtension then some (.dup (46 :: bytes f.extendeeFullName)) else none,
    default_value := if f.hasDefault then some (defaultOut fmt f) else none,
    oneof_index := f.oneofIndex, proto3_optional := f.isProto3Optional,
    options := f.hasOptions }

theorem valIs_ite_some {c : Prop} [Decidable c] {m : M OutStr} {v : OutStr}
    (h : ValIs m v) :
    ValIs (if c then M.bind m (fun x => M.pure (some x)) else M.pure none)
      (if c then some v else none) :=
  valIs_ite (valIs_bind h (valIs_pure _)) (valIs_pure _)

theorem valIs_fielddef (fmt : Fmt) (f : FieldDef) :
    ValIs (fielddef_toproto fmt f) (fieldOut fmt f) := by
  unfold fielddef_toproto
  refine valIs_bind (valIs_unitM _) ?_
  refine valIs_bind (valIs_strviewdup _) ?_
  refine valIs_bind (valIs_ite_some (valIs_strviewdup _)) ?_
  refine valIs_bind
    (valIs_ite (valIs_bind (valIs_qual_dup _) (valIs_pure _))
      (valIs_ite_some (valIs_qual_dup _))) ?_
  refine valIs_bind (valIs_ite_some (valIs_qual_dup _)) ?_
  refine valIs_bind (valIs_ite_some (valIs_default_string fmt f)) ?_
  refine valIs_bind (valIs_unitM _) ?_
  exact valIs_pure_of _ rfl

def oneofOut (o : OneofDef) : OneofDescriptorProto :=
  { name := .dup (bytes o.name), options := o.hasOptions }

theorem valIs_oneofdef (o : OneofDef) :
    ValIs (oneofdef_toproto o) (oneofOut o) := by
  unfold oneofdef_toproto
  refine valIs_bind (valIs_unitM _) ?_
  refine valIs_bind (valIs_strviewdup _) ?_
  refine valIs_bind (valIs_unitM _) ?_
  exact valIs_pure_of _ rfl

def enumvalOut (e : EnumValDef) : EnumValueDescriptorProto :=
  { name := .dup (bytes e.name), number := e.number, options := e.hasOptions }

theorem valIs_enumvaldef (e : EnumValDef) :
    ValIs (enumvaldef_toproto e) (enumvalOut e) := by
  unfold enumvaldef_toproto
  refine valIs_bind (valIs_unitM _) ?_
  refine valIs_bind (valIs_strviewdup _) ?_
  refine valIs_bind (valIs_unitM _) ?_
  exact valIs_pure_of _ rfl

theorem valIs_convList {f : α → M β} {g : α → β} :
    ∀ xs : List α, (∀ x ∈ xs, ValIs (f x) (g x)) →
      ValIs (convList f xs) (xs.map g)
  | [], _ => valIs_pure _
  | x :: xs, h => by
    unfold convList
    refine valIs_bind (h x (List.mem_cons_self x xs)) ?_
    refine valIs_bind (valIs_convList xs (fun y hy => h y (List.mem_cons_of_mem x hy))) ?_
    exact valIs_pure_of _ rfl

theorem valIs_resrange (r : Int × Int) : ValIs (resrange_toproto r) r :=
  valIs_bind (valIs_unitM _) (valIs_pure _)

theorem valIs_enumresrange (r : Int × Int) : ValIs (enumresrange_toproto r) r :=
  valIs_bind (valIs_unitM _) (valIs_pure _)

theorem valIs_extrange (e : Int × Int × Bool) : ValIs (extrange_toproto e) e :=
  valIs_bind (valIs_unitM _) (valIs_bind (valIs_unitM _) (valIs_pure _))

def enumOut (e : EnumDef) : EnumDescriptorProto :=
  { name := .dup (bytes e.name), value := e.values.map enumvalOut,
    reserved_range := e.reservedRanges,
    reserved_name := e.reservedNames.map (fun s => OutStr.alias (bytes s)),
    options := e.hasOptions }

theorem valIs_enumdef (e : EnumDef) : ValIs (enumdef_toproto e) (enumOut e) := by
  unfold enumdef_toproto
  refine valIs_bind (valIs_unitM _) ?_
  refine valIs_bind (valIs_strviewdup _) ?_
  refine valIs_bind (valIs_unitM _) ?_
  refine valIs_bind (valIs_convList _ (fun x _ => valIs_enumvaldef x)) ?_
  refine valIs_bind (valIs_unitM _) ?_
  refine valIs_bind (valIs_convList _ (fun x _ => valIs_enumresrange x)) ?_
  refine valIs_bind (valIs_unitM _) ?_
  refine valIs_bind (valIs_unitM _) ?_
  refine valIs_pure_of _ ?_
  simp [enumOut, List.map_id]

def methodOut (m : MethodDef) : MethodDescriptorProto :=
  { name := .dup (bytes m.name),
    input_type := .dup (46 :: bytes m.inputTypeFullName),
    output_type := .dup (46 :: bytes m.outputTypeFullName),
    client_streaming := m.clientStreaming,
    server_streaming := m.serverStreaming, options := m.hasOptions }

theorem valIs_methoddef (m : MethodDef) :
    ValIs (methoddef_toproto m) (methodOut m) := by
  unfold methoddef_toproto
  refine valIs_bind (valIs_unitM _) ?_
  refine valIs_bind (valIs_strviewdup _) ?_
  refine valIs_bind (valIs_qual_dup _) ?_
  refine valIs_bind (valIs_qual_dup _) ?_
  refine valIs_bind (valIs_unitM _) ?_
  exact valIs_pure_of _ rfl

def svcOut (s : ServiceDef) : ServiceDescriptorProto :=
  { name := .dup (bytes s.name), method := s.methods.map methodOut,
    options := s.hasOptions }

theorem valIs_servicedef (s : ServiceDef) :
    ValIs (servicedef_toproto s) (svcOut s) := by
  unfold servicedef_toproto
  refine valIs_bind (valIs_unitM _) ?_
  refine valIs_bind (valIs_strviewdup _) ?_
  refine valIs_bind (valIs_unitM _) ?_
  refine valIs_bind (valIs_convList _ (fun x _ => valIs_methoddef x)) ?_
  refine valIs_bind (valIs_unitM _) ?_
  exact valIs_pure_of _ rfl

mutual

def msgOut (fmt : Fmt) : MessageDef → DescriptorProto
  | .mk name fields oneofs nestedMsgs nestedEnums nestedExts extRanges
      resRanges resNames hasOpts =>
    .mk (.dup (bytes name)) (fields.map (fieldOut fmt)) (oneofs.map oneofOut)
      (msgsOut fmt nestedMsgs) (nestedEnums.map enumOut)
      (nestedExts.map (fieldOut fmt)) extRanges resRanges
      (resNames.map (fun s => OutStr.alias (bytes s))) hasOpts

def msgsOut (fmt : Fmt) : List MessageDef → List DescriptorProto
  | [] => []
  | m :: ms => msgOut fmt m :: msgsOut fmt ms

end

mutual

theorem valIs_msgdef (fmt : Fmt) :
    ∀ m : MessageDef, ValIs (msgdef_toproto fmt m) (msgOut fmt m)
  | .mk name fields oneofs nestedMsgs nestedEnums nestedExts extRanges
      resRanges resNames hasOpts => by
    unfold msgdef_toproto msgOut
    refine valIs_bind (valIs_unitM _) ?_
    refine valIs_bind (valIs_strviewdup _) ?_
    refine valIs_bind (valIs_unitM _) ?_
    refine valIs_bind (valIs_convList _ (fun x _ => valIs_fielddef fmt x)) ?_
    refine valIs_bind (valIs_unitM _) ?_
    refine valIs_bind (valIs_convList _ (fun x _ => valIs_oneofdef x)) ?_
    refine valIs_bind (valIs_unitM _) ?_
    refine valIs_bind (valIs_convMsgs fmt nestedMsgs) ?_
    refine valIs_bind (valIs_unitM _) ?_
    refine valIs_bind (valIs_convList _ (fun x _ => valIs_enumdef x)) ?_
    refine valIs_bind (valIs_unitM _) ?_
    refine valIs_bind (valIs_convList _ (fun x _ => valIs_fielddef fmt x)) ?_
    refine valIs_bind (valIs_unitM _) ?_
    refine valIs_bind (valIs_convList _ (fun x _ => valIs_extrange x)) ?_
    refine valIs_bind (valIs_unitM _) ?_
    refine valIs_bind (valIs_convList _ (fun x _ => valIs_resrange x)) ?_
    refine valIs_bind (valIs_unitM _) ?_
    refine valIs_bind (valIs_unitM _) ?_
    refine valIs_pure_of _ ?_
    simp [List.map_id]

theorem valIs_convMsgs (fmt : Fmt) :
    ∀ ms : List MessageDef, ValIs (convMsgs fmt ms) (msgsOut fmt ms)
  | [] => valIs_pure _
  | m :: ms => by
    unfold convMsgs msgsOut
    refine valIs_bind (valIs_msgdef fmt m) ?_
    refine valIs_bind (valIs_convMsgs fmt ms) ?_
    exact valIs_pure_of _ rfl

end

def fileOut (fmt : Fmt) (f : FileDef) : FileDescriptorProto :=
  { name := .dup (bytes f.name),
    package :=
      match f.package with
      | some pk => if pk.length ≠ 0 then some (.dup (bytes pk)) else none
      | none => none,
    edition := if f.synMode = .editions then some f.edition else none,
    synTok := if f.synMode = .proto3 then some (.dup (bytes "proto3")) else none,
    dependency := f.deps.map (fun d => .dup (bytes d)),
    public_dependency := f.publicDeps, weak_dependency := f.weakDeps,
    message_type := msgsOut fmt f.topMsgs,
    enum_type := f.topEnums.map enumOut,
    service := f.services.map svcOut,
    extension := f.topExts.map (fieldOut fmt), options := f.hasOptions }

theorem valIs_filedef (fmt : Fmt) (f : FileDef) :
    ValIs (filedef_toproto fmt f) (fileOut fmt f) := by
  unfold filedef_toproto
  refine valIs_bind (valIs_unitM _) ?_
  refine valIs_bind (valIs_strviewdup _) ?_
  have hpkg :
      ValIs (match f.package with
             | some pk =>
               if pk.length ≠ 0 then
                 M.bind (strviewdup pk) fun s => M.pure (some s)
               else M.pure none
             | none => M.pure none)
        (match f.package with
         | some pk => if pk.length ≠ 0 then some (OutStr.dup (bytes pk)) else none
         | none => none) := by
    cases f.package with
    | some pk => exact valIs_ite_some (valIs_strviewdup _)
    | none => exact valIs_pure _
  refine valIs_bind hpkg ?_
  refine valIs_bind (valIs_ite_some (valIs_strviewdup _)) ?_
  refine valIs_bind (valIs_unitM _) ?_
  refine valIs_bind (valIs_convList _ (fun x _ => valIs_strviewdup x)) ?_
  refine valIs_bind (valIs_unitM _) ?_
  refine valIs_bind (valIs_unitM _) ?_
  refine valIs_bind (valIs_unitM _) ?_
  refine valIs_bind (valIs_convMsgs fmt f.topMsgs) ?_
  refine valIs_bind (valIs_unitM _) ?_
  refine valIs_bind (valIs_convList _ (fun x _ => valIs_enumdef x)) ?_
  refine valIs_bind (valIs_unitM _) ?_
  refine valIs_bind (valIs_convList _ (fun x _ => valIs_servicedef x)) ?_
  refine valIs_bind (valIs_unitM _) ?_
  refine valIs_bind (valIs_convList _ (fun x _ => valIs_fielddef fmt x)) ?_
  refine valIs_bind (valIs_unitM _) ?_
  exact valIs_pure_of _ rfl

/-! ## Escaping lemmas -/

theorem unescape_cons_verbatim {b : Nat} (hb : b ≠ 92) (l : List Nat) :
    unescape_bytes (b :: l) = b :: unescape_bytes l := by
  conv_lhs => rw [unescape_bytes.eq_def]
  simp [hb]

/-- C3 counterexample helper: every claim-conformant output byte lies in
`0x20..0x7e` (the bytes of the six escapes and of octal escapes all do). -/
theorem escape_bytes_mem_aux :
    ∀ bs : List Nat, (∀ b ∈ bs, b < 256) →
      (∀ c ∈ escape_bytes bs, 0x20 ≤ c ∧ c ≤ 0x7f) ∧
      unescape_bytes (escape_bytes bs) = bs := by
  intro bs
  induction bs with
  | nil => intro _; exact ⟨by simp [escape_bytes], rfl⟩
  | cons b rest ih =>
    intro hlt
    have hb : b < 256 := hlt b (List.mem_cons_self b rest)
    have ihr := ih (fun x hx => hlt x (List.mem_cons_of_mem b hx))
    by_cases h10 : b = 10
    · subst h10
      refine ⟨?_, ?_⟩
      · intro c hc
        simp [escape_bytes, special_escape] at hc
        rcases hc with h | h | h
        · omega
        · omega
        · exact ihr.1 c h
      · have hesc : escape_bytes (10 :: rest) = 92 :: 110 :: escape_bytes rest := by
          simp [escape_bytes, special_escape]
        rw [hesc]
        conv_lhs => rw [unescape_bytes.eq_def]
        simp [ihr.2]
    · by_cases h13 : b = 13
      · subst h13
        refine ⟨?_, ?_⟩
        · intro c hc
          simp [escape_bytes, special_escape] at hc
          rcases hc with h | h | h
          · omega
          · omega
          · exact ihr.1 c h
        · have hesc : escape_bytes (13 :: rest) = 92 :: 114 :: escape_bytes rest := by
            simp [escape_bytes, special_escape]
          rw [hesc]
          conv_lhs => rw [unescape_bytes.eq_def]
          simp [ihr.2]
      · by_cases h9 : b = 9
        · subst h9
          refine ⟨?_, ?_⟩
          · intro c hc
            simp [escape_bytes, special_escape] at hc
            rcases hc with h | h | h
            · omega
            · omega
            · exact ihr.1 c h
          · have hesc : escape_bytes (9 :: rest) = 92 :: 116 :: escape_bytes rest := by
              simp [escape_bytes, special_escape]
            rw [hesc]
            conv_lhs => rw [unescape_bytes.eq_def]
            simp [ihr.2]
        · by_cases h92 : b = 92
          · subst h92
            refine ⟨?_, ?_⟩
            · intro c hc
              simp [escape_bytes, special_escape] at hc
              rcases hc with h | h
              · omega
              · exact ihr.1 c h
            · have hesc : escape_bytes (92 :: rest) = 92 :: 92 :: escape_bytes rest := by
                simp [escape_bytes, special_escape]
              rw [hesc]
              conv_lhs => rw [unescape_bytes.eq_def]
              simp [ihr.2]
          · by_cases h39 : b = 39
            · subst h39
              refine ⟨?_, ?_⟩
              · intro c hc
                simp [escape_bytes, special_escape] at hc
                rcases hc with h | h | h
                · omega
                · omega
                · exact ihr.1 c h
              · have hesc : escape_bytes (39 :: rest) = 92 :: 39 :: escape_bytes rest := by
                  simp [escape_bytes, special_escape]
                rw [hesc]
                conv_lhs => rw [unescape_bytes.eq_def]
                simp [ihr.2]
            · by_cases h34 : b = 34
              · subst h34
                refine ⟨?_, ?_⟩
                · intro c hc
                  simp [escape_bytes, special_escape] at hc
                  rcases hc with h | h | h
                  · omega
                  · omega
                  · exact ihr.1 c h
                · have hesc : escape_bytes (34 :: rest) = 92 :: 34 :: escape_bytes rest := by
                    simp [escape_bytes, special_escape]
                  rw [hesc]
                  conv_lhs => rw [unescape_bytes.eq_def]
                  simp [ihr.2]
              · have hspec : special_escape b = -1 := by
                  simp [special_escape, h10, h13, h9, h92, h39, h34]
                by_cases hpr : upb_isprint b
                · have hesc : escape_bytes (b :: rest) = b :: escape_bytes rest := by
                    simp [escape_bytes, hspec, hpr]
                  have hbnds : 0x20 ≤ b ∧ b ≤ 0x7f := by
                    simp [upb_isprint] at hpr
                    exact hpr
                  refine ⟨?_, ?_⟩
                  · intro c hc
                    rw [hesc] at hc
                    simp at hc
                    rcases hc with h | h
                    · subst h; exact hbnds
                    · exact ihr.1 c h
                  · rw [hesc, unescape_cons_verbatim h92, ihr.2]
                · have hesc : escape_bytes (b :: rest) =
                      92 :: (48 + b / 64) :: (48 + b / 8 % 8) :: (48 + b % 8) ::
                        escape_bytes rest := by
                    simp [escape_bytes, hspec, hpr]
                  refine ⟨?_, ?_⟩
                  · intro c hc
                    rw [hesc] at hc
                    simp at hc
                    rcases hc with h | h | h | h | h
                    · omega
                    · omega
                    · omega
                    · omega
                    · exact ihr.1 c h
                  · rw [hesc]
                    have hc110 : ¬(48 + b / 64 = 110) := by omega
                    have hc114 : ¬(48 + b / 64 = 114) := by omega
                    have hc116 : ¬(48 + b / 64 = 116) := by omega
                    have hcq92 : ¬(48 + b / 64 = 92) := by omega
                    have hc39 : ¬(48 + b / 64 = 39) := by omega
                    have hc34 : ¬(48 + b / 64 = 34) := by omega
                    conv_lhs => rw [unescape_bytes.eq_def]
                    simp only [if_pos rfl, if_neg hc110, if_neg hc114, if_neg hc116,
                      if_neg hcq92, if_neg hc39, if_neg hc34]
                    rw [ihr.2]
                    simp only [if_true]
                    congr 1
                    omega

/-- C3: the claim restricts verbatim output bytes to `0x20..0x7e`, but
`upb_isprint` accepts `0x7f` as well: the input byte `0x7f` is emitted
verbatim, producing an output byte outside the claimed character set. -/
theorem c3_counterexample :
    (0x7f : Nat) < 256 ∧ escape_bytes [0x7f] = [0x7f] ∧
      0x7f ∈ escape_bytes [0x7f] ∧ ¬((0x7f : Nat) ≤ 0x7e) := by
  exact ⟨by decide, by decide, by decide, by decide⟩

/-- C3 (amended): for every byte-string input, every byte of the
`escape_bytes` output lies in the printable range `0x20..0x7f` (the code's
`upb_isprint` range, which includes `0x7f`) or is part of a two-character
special escape or four-character octal escape (all of whose bytes also lie
in that range), and the standard unescaping of the output reproduces the
original byte sequence exactly. -/
theorem c3_escape_bytes_amended (bs : List Nat) (hbs : ∀ b ∈ bs, b < 256) :
    (∀ c ∈ escape_bytes bs, 0x20 ≤ c ∧ c ≤ 0x7f) ∧
      unescape_bytes (escape_bytes bs) = bs :=
  escape_bytes_mem_aux bs hbs

/-- C3 witness: the spec's own example `[0x00, 0x41]`, whose escaped form is
`"\000A"` and which unescapes back to the original. -/
theorem c3_witness :
    unescape_bytes (escape_bytes [0x00, 0x41]) = [0x00, 0x41] :=
  (c3_escape_bytes_amended [0x00, 0x41] (by decide)).2

/-- C8: for every input byte string, the length computed by the first
scanning pass of `default_bytes` (`escape_len`: 2 per special escape, 1 per
printable byte, 4 per octal escape) equals the number of bytes written by
the second pass (`escape_bytes`), so the single destination allocation is
exactly the right size. -/
theorem c8_escape_len_eq : ∀ bs : List Nat, (escape_bytes bs).length = escape_len bs := by
  intro bs
  induction bs with
  | nil => rfl
  | cons b rest ih =>
    unfold escape_bytes escape_len
    split
    · simp [ih]; omega
    · split
      · simp [ih]; omega
      · simp [ih]; omega

/-- C9: for every non-empty input name, `qual_dup` returns exactly the
byte string `'.'` (byte 46) followed by the input name, into arena-owned
storage; the result begins with `'.'` and is one byte longer than the
input. -/
theorem c9_qual_dup (s : String) (hne : s ≠ "") :
    ∀ sc i a j, qual_dup s sc i = .ok a j →
      a = .dup (46 :: bytes s) ∧
      (46 :: bytes s).length = (bytes s).length + 1 ∧
      (46 :: bytes s).head? = some 46 := by
  intro sc i a j h
  exact ⟨valIs_qual_dup s sc i a j h, rfl, rfl⟩

/-- C9 witness at the non-empty name `"ab"`. -/
theorem c9_witness :
    OutStr.dup (46 :: bytes "ab") = .dup (46 :: bytes "ab") ∧
      (46 :: bytes "ab").length = (bytes "ab").length + 1 ∧
      (46 :: bytes "ab").head? = some 46 :=
  c9_qual_dup "ab" (by decide) allT 0 (.dup (46 :: bytes "ab")) 1 rfl

/-- C5: in `default_string` the special-value check runs before the generic
numeric formatter for both the float and the double kind: positive infinity
yields `"inf"`, negative infinity `"-inf"`, and NaN (the value comparing
unequal to itself) `"nan"`; only a non-special (finite) value reaches the
9-significant-digit (float) or 17-significant-digit (double) formatter. -/
theorem c5_special_floats (fmt : Fmt) :
    (∀ f : FieldDef, ∀ sc i a j, f.ctype = .floatT → f.defaultVal = .floatV .posInf →
      default_string fmt f sc i = .ok a j → a = .dup (bytes "inf")) ∧
    (∀ f : FieldDef, ∀ sc i a j, f.ctype = .floatT → f.defaultVal = .floatV .negInf →
      default_string fmt f sc i = .ok a j → a = .dup (bytes "-inf")) ∧
    (∀ f : FieldDef, ∀ sc i a j, f.ctype = .floatT → f.defaultVal = .floatV .nanV →
      default_string fmt f sc i = .ok a j → a = .dup (bytes "nan")) ∧
    (∀ f : FieldDef, ∀ sc i a j t, f.ctype = .floatT → f.defaultVal = .floatV (.finite t) →
      default_string fmt f sc i = .ok a j → a = .dup (fmt.g9 t)) ∧
    (∀ f : FieldDef, ∀ sc i a j, f.ctype = .doubleT → f.defaultVal = .doubleV .posInf →
      default_string fmt f sc i = .ok a j → a = .dup (bytes "inf")) ∧
    (∀ f : FieldDef, ∀ sc i a j, f.ctype = .doubleT → f.defaultVal = .doubleV .negInf →
      default_string fmt f sc i = .ok a j → a = .dup (bytes "-inf")) ∧
    (∀ f : FieldDef, ∀ sc i a j, f.ctype = .doubleT → f.defaultVal = .doubleV .nanV →
      default_string fmt f sc i = .ok a j → a = .dup (bytes "nan")) ∧
    (∀ f : FieldDef, ∀ sc i a j t, f.ctype = .doubleT → f.defaultVal = .doubleV (.finite t) →
      default_string fmt f sc i = .ok a j → a = .dup (fmt.g17 t)) := by
  refine ⟨?_, ?_, ?_, ?_, ?_, ?_, ?_, ?_⟩ <;>
    first
      | · intro f sc i a j hc hd h
          have hv := valIs_default_string fmt f sc i a j h
          rw [hv]
          unfold defaultOut
          rw [hc, hd]
      | · intro f sc i a j t hc hd h
          have hv := valIs_default_string fmt f sc i a j h
          rw [hv]
          unfold defaultOut
          rw [hc, hd]

/-- C5 witness: a double field with default NaN yields `"nan"`. -/
def fmt0 : Fmt := ⟨fun _ => [], fun _ => []⟩

def dummyEnum : EnumDef :=
  { name := "", fullName := "", values := [], reservedRanges := [],
    reservedNames := [], hasOptions := false }

def f5 : FieldDef :=
  { name := "d", number := 1, label := 1, ftype := 1,
    hasJsonName := false, jsonName := "", isSubMessage := false,
    msgSubFullName := "", ctype := .doubleT, enumSub := dummyEnum,
    isExtension := false, extendeeFullName := "", hasDefault := true,
    defaultVal := .doubleV .nanV, oneofIndex := none,
    isProto3Optional := false, hasOptions := false }

theorem c5_witness :
    f5.ctype = .doubleT ∧ f5.defaultVal = .doubleV .nanV ∧
      OutStr.dup (bytes "nan") = .dup (bytes "nan") :=
  ⟨rfl, rfl,
    (c5_special_floats fmt0).2.2.2.2.2.2.1 f5 allT 0 (.dup (bytes "nan")) 1 rfl rfl rfl⟩

/-- C6: for every converted field, the `type_name` slot holds the qualified
full name of the message sub-type whenever the field is a sub-message
reference (taking precedence over enum qualification), the qualified full
name of the enum sub-type when the field is enum-typed and not a sub-message
reference, and is absent otherwise. -/
theorem c6_type_name (fmt : Fmt) (f : FieldDef) :
    ∀ sc i p j, fielddef_toproto fmt f sc i = .ok p j →
      p.type_name =
        (if f.isSubMessage then some (OutStr.dup (46 :: bytes f.msgSubFullName))
         else if f.ctype = .enumT then
           some (OutStr.dup (46 :: bytes f.enumSub.fullName))
         else none) := by
  intro sc i p j h
  rw [valIs_fielddef fmt f sc i p j h]
  rfl

/-- C6 witness: a field that is both a sub-message reference and enum-typed
gets the message sub-type's qualified name, showing precedence. -/
def f6 : FieldDef :=
  { name := "x", number := 2, label := 1, ftype := 11,
    hasJsonName := false, jsonName := "", isSubMessage := true,
    msgSubFullName := "pkg.M", ctype := .enumT,
    enumSub := { dummyEnum with fullName := "pkg.E" },
    isExtension := false, extendeeFullName := "", hasDefault := false,
    defaultVal := .boolV false, oneofIndex := none,
    isProto3Optional := false, hasOptions := false }

theorem c6_witness :
    (fieldOut fmt0 f6).type_name = some (OutStr.dup (46 :: bytes "pkg.M")) := by
  have h := c6_type_name fmt0 f6 allT 0 (fieldOut fmt0 f6) 3 (by rfl)
  simpa using h

/-- C7: for every converted file, the package name is emitted only when
present and non-empty; the edition number is emitted exactly when the file's
syntax mode is the editions mode; the token `"proto3"` is emitted exactly
when the file is in proto3 mode; and a proto2-mode file emits no syntax
token. -/
theorem c7_file_header (fmt : Fmt) (f : FileDef) :
    ∀ sc i p j, filedef_toproto fmt f sc i = .ok p j →
      p.package =
        (match f.package with
         | some pk => if pk.length ≠ 0 then some (OutStr.dup (bytes pk)) else none
         | none => none) ∧
      p.edition = (if f.synMode = .editions then some f.edition else none) ∧
      p.synTok =
        (if f.synMode = .proto3 then some (OutStr.dup (bytes "proto3")) else none) ∧
      (f.synMode = .proto2 → p.synTok = none) := by
  intro sc i p j h
  rw [valIs_filedef fmt f sc i p j h]
  refine ⟨rfl, rfl, rfl, ?_⟩
  intro h2
  simp [fileOut, h2]

/-- C7 witness: a proto3 file with package `"a.b"`. -/
def file1 : FileDef :=
  { name := "t.proto", package := some "a.b", synMode := .proto3,
    edition := 0, deps := [], publicDeps := [], weakDeps := [],
    topMsgs := [], topEnums := [], services := [], topExts := [],
    hasOptions := false }

theorem c7_witness :
    (fileOut fmt0 file1).package = some (OutStr.dup (bytes "a.b")) ∧
      (fileOut fmt0 file1).edition = none ∧
      (fileOut fmt0 file1).synTok = some (OutStr.dup (bytes "proto3")) := by
  have h := c7_file_header fmt0 file1 allT 0 (fileOut fmt0 file1) 11 (by rfl)
  refine ⟨?_, ?_, ?_⟩
  · rw [h.1]; rfl
  · rw [h.2.1]; rfl
  · rw [h.2.2.1]; rfl

/-! ## Run inversion lemmas -/

theorem M.bind_ok {m : M α} {f : α → M β} {s : Sched} {i : Nat} {b : β} {j : Nat}
    (h : M.bind m f s i = .ok b j) :
    ∃ a k, m s i = .ok a k ∧ f a s k = .ok b j := by
  unfold M.bind at h
  cases hm : m s i with
  | ok a k =>
    rw [hm] at h
    exact ⟨a, k, rfl, h⟩
  | oom k => rw [hm] at h; cases h
  | crash k => rw [hm] at h; cases h

theorem convList_ok_inv {f : α → M β} :
    ∀ {xs : List α} {s : Sched} {i : Nat} {ys : List β} {j : Nat},
      convList f xs s i = .ok ys j →
      ys.length = xs.length ∧
      ∀ k (hk : k < xs.length) (hk' : k < ys.length),
        ∃ a b, f (xs.get ⟨k, hk⟩) s a = .ok (ys.get ⟨k, hk'⟩) b := by
  intro xs
  induction xs with
  | nil =>
    intro s i ys j h
    simp [convList, M.pure] at h
    refine ⟨by simp [h.1], ?_⟩
    intro k hk
    exact absurd hk (by simp)
  | cons x xs ih =>
    intro s i ys j h
    unfold convList at h
    obtain ⟨y, k1, hy, h⟩ := M.bind_ok h
    obtain ⟨ys', k2, hys, h⟩ := M.bind_ok h
    simp [M.pure] at h
    obtain ⟨hys_eq, -⟩ := h
    subst hys_eq
    obtain ⟨hlen, hslots⟩ := ih hys
    refine ⟨by simp [hlen], ?_⟩
    intro k hk hk'
    cases k with
    | zero => exact ⟨i, k1, hy⟩
    | succ k =>
      exact hslots k (Nat.lt_of_succ_lt_succ hk) (Nat.lt_of_succ_lt_succ hk')

theorem convMsgs_eq_convList (fmt : Fmt) :
    ∀ ms : List MessageDef, convMsgs fmt ms = convList (msgdef_toproto fmt) ms
  | [] => rfl
  | m :: ms => by
    unfold convMsgs convList
    rw [convMsgs_eq_convList fmt ms]

/-- C4: for every entity with K children in a repeated-child category, the
converter produces an output slot array of length exactly K whose slot k
holds the conversion of source child k (source order preserved): shown for
the fields of a message, the values of an enum, the methods of a service,
and the top-level messages of a file. -/
theorem c4_child_arrays (fmt : Fmt) :
    (∀ (m : MessageDef) (sc : Sched) (i : Nat) (p : DescriptorProto) (j : Nat),
      msgdef_toproto fmt m sc i = .ok p j →
      p.field.length = m.fields.length ∧
      ∀ k (hk : k < m.fields.length) (hk' : k < p.field.length),
        ∃ a b, fielddef_toproto fmt (m.fields.get ⟨k, hk⟩) sc a =
          .ok (p.field.get ⟨k, hk'⟩) b) ∧
    (∀ (e : EnumDef) (sc : Sched) (i : Nat) (p : EnumDescriptorProto) (j : Nat),
      enumdef_toproto e sc i = .ok p j →
      p.value.length = e.values.length ∧
      ∀ k (hk : k < e.values.length) (hk' : k < p.value.length),
        ∃ a b, enumvaldef_toproto (e.values.get ⟨k, hk⟩) sc a =
          .ok (p.value.get ⟨k, hk'⟩) b) ∧
    (∀ (s : ServiceDef) (sc : Sched) (i : Nat) (p : ServiceDescriptorProto) (j : Nat),
      servicedef_toproto s sc i = .ok p j →
      p.method.length = s.methods.length ∧
      ∀ k (hk : k < s.methods.length) (hk' : k < p.method.length),
        ∃ a b, methoddef_toproto (s.methods.get ⟨k, hk⟩) sc a =
          .ok (p.method.get ⟨k, hk'⟩) b) ∧
    (∀ (f : FileDef) (sc : Sched) (i : Nat) (p : FileDescriptorProto) (j : Nat),
      filedef_toproto fmt f sc i = .ok p j →
      p.message_type.length = f.topMsgs.length ∧
      ∀ k (hk : k < f.topMsgs.length) (hk' : k < p.message_type.length),
        ∃ a b, msgdef_toproto fmt (f.topMsgs.get ⟨k, hk⟩) sc a =
          .ok (p.message_type.get ⟨k, hk'⟩) b) := by
  refine ⟨?_, ?_, ?_, ?_⟩
  · intro m sc i p j h
    have hp := valIs_msgdef fmt m sc i p j h
    obtain ⟨name, fields, oneofs, nmsgs, nenums, nexts, ers, rrs, rns, opts⟩ := m
    unfold msgdef_toproto at h
    obtain ⟨-, i0, -, h⟩ := M.bind_ok h
    obtain ⟨nm, i1, -, h⟩ := M.bind_ok h
    obtain ⟨-, i2, -, h⟩ := M.bind_ok h
    obtain ⟨fs, i3, hfs, h⟩ := M.bind_ok h
    have hfs_val : fs = fields.map (fieldOut fmt) :=
      valIs_convList fields (fun x _ => valIs_fielddef fmt x) sc _ fs _ hfs
    have hpf : p.field = fs := by
      rw [hp, hfs_val]
      rfl
    subst hpf
    exact ⟨(convList_ok_inv hfs).1, fun k hk hk' => (convList_ok_inv hfs).2 k hk hk'⟩
  · intro e sc i p j h
    have hp := valIs_enumdef e sc i p j h
    unfold enumdef_toproto at h
    obtain ⟨-, i0, -, h⟩ := M.bind_ok h
    obtain ⟨nm, i1, -, h⟩ := M.bind_ok h
    obtain ⟨-, i2, -, h⟩ := M.bind_ok h
    obtain ⟨vals, i3, hvals, h⟩ := M.bind_ok h
    have hv : vals = e.values.map enumvalOut :=
      valIs_convList e.values (fun x _ => valIs_enumvaldef x) sc _ vals _ hvals
    have hpv : p.value = vals := by
      rw [hp, hv]
      rfl
    subst hpv
    exact ⟨(convList_ok_inv hvals).1, fun k hk hk' => (convList_ok_inv hvals).2 k hk hk'⟩
  · intro s sc i p j h
    have hp := valIs_servicedef s sc i p j h
    unfold servicedef_toproto at h
    obtain ⟨-, i0, -, h⟩ := M.bind_ok h
    obtain ⟨nm, i1, -, h⟩ := M.bind_ok h
    obtain ⟨-, i2, -, h⟩ := M.bind_ok h
    obtain ⟨ms, i3, hms, h⟩ := M.bind_ok h
    have hv : ms = s.methods.map methodOut :=
      valIs_convList s.methods (fun x _ => valIs_methoddef x) sc _ ms _ hms
    have hpm : p.method = ms := by
      rw [hp, hv]
      rfl
    subst hpm
    exact ⟨(convList_ok_inv hms).1, fun k hk hk' => (convList_ok_inv hms).2 k hk hk'⟩
  · intro f sc i p j h
    have hp := valIs_filedef fmt f sc i p j h
    unfold filedef_toproto at h
    obtain ⟨-, i0, -, h⟩ := M.bind_ok h
    obtain ⟨nm, i1, -, h⟩ := M.bind_ok h
    obtain ⟨pkg, i2, -, h⟩ := M.bind_ok h
    obtain ⟨syn, i3, -, h⟩ := M.bind_ok h
    obtain ⟨-, i4, -, h⟩ := M.bind_ok h
    obtain ⟨deps, i5, -, h⟩ := M.bind_ok h
    obtain ⟨-, i6, -, h⟩ := M.bind_ok h
    obtain ⟨-, i7, -, h⟩ := M.bind_ok h
    obtain ⟨-, i8, -, h⟩ := M.bind_ok h
    obtain ⟨msgs, i9, hmsgs, h⟩ := M.bind_ok h
    rw [convMsgs_eq_convList] at hmsgs
    have hv : msgs = msgsOut fmt f.topMsgs := by
      rw [convMsgs_eq_convList] at *
      exact valIs_convMsgs fmt f.topMsgs sc _ msgs _ (by rw [convMsgs_eq_convList]; exact hmsgs)
    have hpm : p.message_type = msgs := by
      rw [hp, hv]
      rfl
    subst hpm
    exact ⟨(convList_ok_inv hmsgs).1, fun k hk hk' => (convList_ok_inv hmsgs).2 k hk hk'⟩

/-- C4 witness: a message with exactly one field. -/
def fld1 : FieldDef :=
  { name := "x", number := 1, label := 1, ftype := 5,
    hasJsonName := false, jsonName := "", isSubMessage := false,
    msgSubFullName := "", ctype := .int32T, enumSub := dummyEnum,
    isExtension := false, extendeeFullName := "", hasDefault := false,
    defaultVal := .int32V 0, oneofIndex := none,
    isProto3Optional := false, hasOptions := false }

def m1 : MessageDef := .mk "M" [fld1] [] [] [] [] [] [] [] false

theorem c4_witness :
    (msgOut fmt0 m1).field.length = m1.fields.length :=
  ((c4_child_arrays fmt0).1 m1 allT 0 (msgOut fmt0 m1) 12 (by rfl)).1

/-! ## C1: the allocation-failure discipline -/

/-- The schedule on which exactly the fourth allocation fails. -/
def s3 : Sched := fun i => decide (i ≠ 3)

/-- An enum with one reserved numeric range. -/
def e1 : EnumDef :=
  { name := "E", fullName := "E", values := [], reservedRanges := [(5, 10)],
    reservedNames := [], hasOptions := false }

/-- C1 counterexample: converting `e1` under a schedule whose fourth
allocation (the unchecked `resize_reserved_range` call) fails does not make
the entry point return the null result: the slot-filling loop writes
through the failed array allocation (undefined behaviour) instead, so this
allocation failure is not detected at the allocator call. -/
theorem c1_counterexample :
    s3 3 = false ∧ upb_EnumDef_ToProto e1 s3 = .undef ∧
      upb_EnumDef_ToProto e1 s3 ≠ .null := by
  exact ⟨by decide, by rfl, by decide⟩

/-- C1 (amended): an entry point never returns a partial result — any
non-null tree it returns is the complete conversion of the input (the value
the conversion produces when every allocation succeeds), and an allocation
failure at a `CHK_OOM`-checked call aborts straight to the null return; but
the repeated-array resize calls other than the message `field` and enum
`value` arrays are unchecked, so a failure there is either undefined
behaviour (nonzero child count) or goes entirely undetected (zero count)
rather than producing the null result. -/
theorem c1_no_partial_result (fmt : Fmt) (m : MessageDef) (sc : Sched)
    (p : DescriptorProto) (h : upb_MessageDef_ToProto fmt m sc = .ok p) :
    p = msgOut fmt m := by
  unfold upb_MessageDef_ToProto runEntry at h
  cases hm : msgdef_toproto fmt m sc 0 with
  | ok a k =>
    rw [hm] at h
    injection h with h1
    exact h1 ▸ valIs_msgdef fmt m sc 0 a k hm
  | oom k => rw [hm] at h; cases h
  | crash k => rw [hm] at h; cases h

/-- C1 witness: the complete conversion of `m1` under an all-successful
schedule. -/
theorem c1_witness : msgOut fmt0 m1 = msgOut fmt0 m1 :=
  c1_no_partial_result fmt0 m1 allT (msgOut fmt0 m1) (by rfl)

/-! ## C2: string provenance in the output tree -/

def OutStr.isDup : OutStr → Bool
  | .dup _ => true
  | .alias _ => false

def OutStr.isAlias : OutStr → Bool
  | .dup _ => false
  | .alias _ => true

def optDup : Option OutStr → Bool
  | none => true
  | some s => s.isDup

/-- All strings of a converted field are arena-owned copies. -/
def fieldStringsOk (p : FieldDescriptorProto) : Bool :=
  p.name.isDup && optDup p.json_name && optDup p.type_name &&
    optDup p.extendee && optDup p.default_value

def oneofStringsOk (p : OneofDescriptorProto) : Bool := p.name.isDup

def enumvalStringsOk (p : EnumValueDescriptorProto) : Bool := p.name.isDup

/-- All strings of a converted enum are arena-owned copies except its
reserved names, which alias the source model. -/
def enumStringsOk (p : EnumDescriptorProto) : Bool :=
  p.name.isDup && p.value.all enumvalStringsOk &&
    p.reserved_name.all OutStr.isAlias

def methodStringsOk (p : MethodDescriptorProto) : Bool :=
  p.name.isDup && p.input_type.isDup && p.output_type.isDup

def svcStringsOk (p : ServiceDescriptorProto) : Bool :=
  p.name.isDup && p.method.all methodStringsOk

mutual

/-- All strings of a converted message are arena-owned copies except the
reserved names (of the message and of its nested enums, recursively), which
alias the source model. -/
def msgStringsOk : DescriptorProto → Bool
  | .mk nm fs os nms nes nxs _ _ rns _ =>
    nm.isDup && fs.all fieldStringsOk && os.all oneofStringsOk &&
      msgsStringsOk nms && nes.all enumStringsOk && nxs.all fieldStringsOk &&
      rns.all OutStr.isAlias

def msgsStringsOk : List DescriptorProto → Bool
  | [] => true
  | p :: ps => msgStringsOk p && msgsStringsOk ps

end

def fileStringsOk (p : FileDescriptorProto) : Bool :=
  p.name.isDup && optDup p.package && optDup p.synTok &&
    p.dependency.all OutStr.isDup && msgsStringsOk p.message_type &&
    p.enum_type.all enumStringsOk && p.service.all svcStringsOk &&
    p.extension.all fieldStringsOk

theorem defaultOut_isDup (fmt : Fmt) (f : FieldDef) :
    (defaultOut fmt f).isDup = true := by
  unfold defaultOut
  split <;> first | rfl | (split <;> rfl)

theorem fieldStringsOk_out (fmt : Fmt) (f : FieldDef) :
    fieldStringsOk (fieldOut fmt f) = true := by
  have hd := defaultOut_isDup fmt f
  simp only [fieldStringsOk, fieldOut]
  split_ifs <;> simp_all [optDup, OutStr.isDup]

theorem enumStringsOk_out (e : EnumDef) : enumStringsOk (enumOut e) = true := by
  simp [enumStringsOk, enumOut, List.all_map, enumvalStringsOk, enumvalOut,
    OutStr.isDup, OutStr.isAlias, Function.comp]

theorem svcStringsOk_out (s : ServiceDef) : svcStringsOk (svcOut s) = true := by
  simp [svcStringsOk, svcOut, List.all_map, methodStringsOk, methodOut,
    OutStr.isDup, Function.comp]

mutual

theorem msgStringsOk_out (fmt : Fmt) :
    ∀ m : MessageDef, msgStringsOk (msgOut fmt m) = true
  | .mk name fields oneofs nestedMsgs nestedEnums nestedExts extRanges
      resRanges resNames hasOpts => by
    unfold msgOut msgStringsOk
    simp [List.all_map, fieldStringsOk_out, oneofStringsOk, oneofOut,
      enumStringsOk_out, OutStr.isDup, OutStr.isAlias, Function.comp,
      msgsStringsOk_out fmt nestedMsgs]

theorem msgsStringsOk_out (fmt : Fmt) :
    ∀ ms : List MessageDef, msgsStringsOk (msgsOut fmt ms) = true
  | [] => rfl
  | m :: ms => by
    unfold msgsOut msgsStringsOk
    simp [msgStringsOk_out fmt m, msgsStringsOk_out fmt ms]

end

theorem fileStringsOk_out (fmt : Fmt) (f : FileDef) :
    fileStringsOk (fileOut fmt f) = true := by
  simp only [fileStringsOk, fileOut]
  simp [OutStr.isDup, List.all_map, Function.comp,
    enumStringsOk_out, svcStringsOk_out, fieldStringsOk_out,
    msgsStringsOk_out fmt f.topMsgs, optDup]
  refine ⟨?_, ?_⟩
  · cases f.package with
    | none => rfl
    | some pk => by_cases hn : pk.length = 0 <;> simp [hn]
  · by_cases hs : f.synMode = SynMode.proto3 <;> simp [hs]

/-- C2 (amended): every string in the output descriptor tree is copied into
arena-owned storage except the reserved-name lists of converted messages
and enums: those are assigned directly from the source model's string views
without duplication, so they alias the source model's storage instead of
being independent of its lifetime. -/
theorem c2_strings_amended (fmt : Fmt) :
    (∀ (e : EnumDef) (sc : Sched) (i : Nat) (p : EnumDescriptorProto) (j : Nat),
      enumdef_toproto e sc i = .ok p j → enumStringsOk p = true) ∧
    (∀ (m : MessageDef) (sc : Sched) (i : Nat) (p : DescriptorProto) (j : Nat),
      msgdef_toproto fmt m sc i = .ok p j → msgStringsOk p = true) ∧
    (∀ (f : FileDef) (sc : Sched) (i : Nat) (p : FileDescriptorProto) (j : Nat),
      filedef_toproto fmt f sc i = .ok p j → fileStringsOk p = true) := by
  refine ⟨?_, ?_, ?_⟩
  · intro e sc i p j h
    rw [valIs_enumdef e sc i p j h]
    exact enumStringsOk_out e
  · intro m sc i p j h
    rw [valIs_msgdef fmt m sc i p j h]
    exact msgStringsOk_out fmt m
  · intro f sc i p j h
    rw [valIs_filedef fmt f sc i p j h]
    exact fileStringsOk_out fmt f

/-- An enum with one reserved name. -/
def e2 : EnumDef :=
  { name := "E", fullName := "E", values := [], reservedRanges := [],
    reservedNames := ["foo"], hasOptions := false }

/-- C2 counterexample: the reserved name `"foo"` of a converted enum is NOT
copied into arena-owned storage — the output slot holds an alias of the
source model's string view (`res_names[i] = upb_EnumDef_ReservedName(e, i)`
with no `strviewdup`), contradicting the claim for reserved-name lists. -/
theorem c2_counterexample :
    upb_EnumDef_ToProto e2 allT =
      .ok { name := .dup (bytes "E"), value := [], reserved_range := [],
            reserved_name := [.alias (bytes "foo")], options := false } ∧
      (OutStr.alias (bytes "foo")).isDup = false := by
  exact ⟨by rfl, by rfl⟩

/-- C2 witness: the amended statement at the concrete enum `e2`. -/
theorem c2_witness : enumStringsOk (enumOut e2) = true :=
  (c2_strings_amended fmt0).1 e2 allT 0 (enumOut e2) 5 (by rfl)

/-! ## C10: formatted numeric text fits the 32-byte buffer -/

theorem natDecAux_length :
    ∀ (fuel n : Nat) (acc : List Nat) (k : Nat),
      n < 10 ^ k → (natDecAux fuel n acc).length ≤ k + acc.length := by
  intro fuel
  induction fuel with
  | zero => intro n acc k _; simp [natDecAux]
  | succ fuel ih =>
    intro n acc k h
    unfold natDecAux
    split
    · simp
    · rename_i hn
      cases k with
      | zero =>
        rw [pow_zero] at h
        omega
      | succ k' =>
        have hd : n / 10 < 10 ^ k' := by
          rw [Nat.div_lt_iff_lt_mul (by norm_num)]
          calc n < 10 ^ (k' + 1) := h
            _ = 10 ^ k' * 10 := by rw [pow_succ]
        have h2 := ih (n / 10) ((48 + n % 10) :: acc) k' hd
        rw [List.length_cons] at h2
        omega

theorem uintDec_length (n k : Nat) (hk : 0 < k) (h : n < 10 ^ k) :
    (uintDec n).length ≤ k := by
  unfold uintDec
  split
  · simpa using hk
  · simpa using natDecAux_length n n [] k h

theorem intDec_length (v : Int) (k : Nat) (hk : 0 < k) (h : v.natAbs < 10 ^ k) :
    (intDec v).length ≤ k + 1 := by
  have hu := uintDec_length v.natAbs k hk h
  unfold intDec
  split
  · rw [List.length_cons]
    omega
  · omega

/-- C10: for every value of every numeric default kind — int32, int64,
uint32, uint64 as plain decimal, and float/double in the `%g` shape with 9
resp. 17 significant digits — the formatted decimal text is strictly
shorter than 32 characters, so it fits `printf_dup`'s fixed 32-byte buffer
and the `UPB_ASSERT(n < max)` length assertion never fails (a `printf_dup`
run never crashes on such text). -/
theorem c10_formatted_lengths :
    (∀ v : Int, -(2 ^ 31) ≤ v → v < 2 ^ 31 → (intDec v).length < 32) ∧
    (∀ v : Int, -(2 ^ 63) ≤ v → v < 2 ^ 63 → (intDec v).length < 32) ∧
    (∀ n : Nat, n < 2 ^ 32 → (uintDec n).length < 32) ∧
    (∀ n : Nat, n < 2 ^ 64 → (uintDec n).length < 32) ∧
    (∀ (sig : Nat) (g : GNum), sig ≤ 17 → g.WF sig → g.render.length < 32) ∧
    (∀ (v : List Nat) (sc : Sched) (i j : Nat), v.length < 32 →
      printf_dup v sc i ≠ .crash j) := by
  refine ⟨?_, ?_, ?_, ?_, ?_, ?_⟩
  · intro v h1 h2
    have hab : v.natAbs < 10 ^ 10 := by
      have : (10 : Nat) ^ 10 = 10000000000 := by norm_num
      omega
    have := intDec_length v 10 (by norm_num) hab
    omega
  · intro v h1 h2
    have hab : v.natAbs < 10 ^ 19 := by
      have : (10 : Nat) ^ 19 = 10000000000000000000 := by norm_num
      omega
    have := intDec_length v 19 (by norm_num) hab
    omega
  · intro n h
    have hn : n < 10 ^ 10 := by
      have : (10 : Nat) ^ 10 = 10000000000 := by norm_num
      omega
    have := uintDec_length n 10 (by norm_num) hn
    omega
  · intro n h
    have hn : n < 10 ^ 20 := by
      have : (10 : Nat) ^ 20 = 100000000000000000000 := by norm_num
      omega
    have := uintDec_length n 20 (by norm_num) hn
    omega
  · intro sig g hsig hwf
    obtain ⟨hm, he⟩ := hwf
    unfold GNum.render
    simp only [List.length_append, List.length_cons]
    split_ifs <;> simp <;> omega
  · intro v sc i j hv
    unfold printf_dup M.bind allocC
    by_cases hs : sc i
    · simp [hs, hv, M.pure]
    · simp [hs]

/-- C10 witness: the most negative 64-bit integer. -/
theorem c10_witness : (intDec (-(2 ^ 63))).length < 32 :=
  c10_formatted_lengths.2.1 (-(2 ^ 63)) (by decide) (by decide)
